import Mathlib

/-!
Shallow embedding of the Simit IR core (`src/ir.h`) and proofs about it.

The embedding covers the handle/node system (reference-counted `Expr`/`Stmt`
handles over tagged nodes), the `Func` entity with its mutable
environment/storage slots, `ForDomain` construction, the tensor read/write
factories, the intrinsics registry, and the index-expression type computation.

External collaborator value types (`Type`, `Var`, `IndexVar`, `IndexSet`,
`Storage`) are out of scope of the repository core and are modelled as small
value structures carrying exactly the observable structure the IR uses
(an index set has a cardinality, a type has dimensions and a component type).

Fallible operations are modelled in `Except Err`.  `Err.iassertFail` models a
failed `iassert` invariant check (fatal, not recoverable); `Err.nullDeref`
models dereferencing the null pointer of an undefined handle, which in the
C++ source is undefined behavior and in particular is *not* an `iassert`.
-/

namespace SimitIR

/-- An index set: the concrete domain an index variable ranges over.
External value type; the IR observes its identity and cardinality. -/
structure IndexSet where
  name : String
  size : Nat
deriving DecidableEq, Repr

/-- Default-constructed `IndexSet` (C++ `class IndexSet indexSet;`). -/
def IndexSet.default : IndexSet := ⟨"", 0⟩

/-- An index variable: a named dimension with the index set it ranges over. -/
structure IndexVar where
  name : String
  domain : IndexSet
deriving DecidableEq, Repr

/-- Scalar component types of tensors. -/
inductive ComponentType where
  | float
  | int
  | boolean
deriving DecidableEq, Repr

/-- The `Type` collaborator value: a tensor type with an ordered list of
dimensions (index sets) and a component type.  A scalar is an order-0 tensor.
(`Type` is the C++ name; `IRType` avoids the clash with Lean's `Type`.) -/
inductive IRType where
  | tensor (dims : List IndexSet) (component : ComponentType)
deriving DecidableEq, Repr

/-- The order (number of dimensions) of a type. -/
def IRType.order : IRType → Nat
  | .tensor dims _ => dims.length

/-- The dimension list of a type. -/
def IRType.dims : IRType → List IndexSet
  | .tensor dims _ => dims

/-- The component type of a type. -/
def IRType.componentOf : IRType → ComponentType
  | .tensor _ c => c

/-- A `Var` collaborator value: a name plus a type. -/
structure Var where
  name : String
  type : IRType
deriving DecidableEq, Repr

/-- The `Storage` collaborator value: a per-variable storage descriptor.
Its concrete representation is external; modelled as an association list of
per-variable storage tags, observed only by value. -/
structure Storage where
  entries : List (Var × Nat)
deriving DecidableEq, Repr

/-- Errors of the embedding.  `iassertFail` is a failed `iassert` check
(fatal invariant violation); `nullDeref` is a dereference of an undefined
handle's null pointer (undefined behavior in the source, not an `iassert`). -/
inductive Err where
  | iassertFail
  | nullDeref
deriving DecidableEq, Repr

/-- The concrete expression node kinds of the catalog in `ir.h`
(the dynamic type a node is constructed with). -/
inductive ExprKind where
  | Literal | VarExpr | Load | FieldRead | Call | Length | IndexRead
  | TensorIndexRead | Neg | Add | Sub | Mul | Div | Not | Eq | Ne
  | Gt | Lt | Ge | Le | And | Or | Xor | TupleRead | TensorRead
  | IndexedTensor | IndexExpr
deriving DecidableEq, Repr

/-- The concrete statement node kinds of the catalog in `ir.h`. -/
inductive StmtKind where
  | VarDecl | AssignStmt | Store | FieldWrite | CallStmt | Block
  | IfThenElse | ForRange | For | While | Kernel | Print | Comment
  | Pass | TensorWrite | Map
deriving DecidableEq, Repr

/-- An expression node (`ExprNodeBase` in `ir.h`): every expression node has a
dynamic kind and carries a `Type` fixed at construction.  Kind-specific
payloads are carried uniformly: operand subtrees (child nodes), the index
variables of `IndexedTensor`/`IndexExpr` nodes, and the raw data bytes of a
`Literal`.  Unused payloads of a kind are empty. -/
inductive ExprNodeBase where
  | mk (kind : ExprKind) (ty : IRType) (operands : List ExprNodeBase)
       (indexVars : List IndexVar) (litData : List Nat) : ExprNodeBase

/-- The dynamic kind of an expression node. -/
def ExprNodeBase.kind : ExprNodeBase → ExprKind
  | .mk k _ _ _ _ => k

/-- The type stored on an expression node (set at construction). -/
def ExprNodeBase.ty : ExprNodeBase → IRType
  | .mk _ t _ _ _ => t

/-- The operand subtrees of an expression node. -/
def ExprNodeBase.operands : ExprNodeBase → List ExprNodeBase
  | .mk _ _ ops _ _ => ops

/-- The index variables of an `IndexedTensor`/`IndexExpr` node. -/
def ExprNodeBase.indexVars : ExprNodeBase → List IndexVar
  | .mk _ _ _ ivs _ => ivs

/-- The raw data of a `Literal` node. -/
def ExprNodeBase.litData : ExprNodeBase → List Nat
  | .mk _ _ _ _ d => d

/-- A statement node (`StmtNodeBase` in `ir.h`): a dynamic kind, no type. -/
structure StmtNodeBase where
  kind : StmtKind
deriving DecidableEq, Repr

/-- An expression handle (`class Expr`): wraps a possibly-null pointer to a
shared node.  `node = none` is the undefined handle (null `ptr`). -/
structure Expr where
  node : Option ExprNodeBase

/-- A statement handle (`class Stmt`). -/
structure Stmt where
  node : Option StmtNodeBase
deriving DecidableEq, Repr

/-- `IntrusivePtr::defined()`: the handle holds a node. -/
def Expr.defined (e : Expr) : Bool := e.node.isSome

/-- `IntrusivePtr::defined()` for statement handles. -/
def Stmt.defined (s : Stmt) : Bool := s.node.isSome

/-- `dynamic_cast<const E*>(e.ptr)` for a concrete node kind `E`: non-null
exactly when the pointer is non-null and the dynamic kind matches. -/
def Expr.dynCast (K : ExprKind) (e : Expr) : Option ExprNodeBase :=
  match e.node with
  | some n => if n.kind = K then some n else none
  | none => none

/-- `dynamic_cast<const S*>(s.ptr)` for a concrete statement node kind. -/
def Stmt.dynCast (K : StmtKind) (s : Stmt) : Option StmtNodeBase :=
  match s.node with
  | some n => if n.kind = K then some n else none
  | none => none

/-- `isa<E>(Expr)` (ir.h line 85): `e.defined() && dynamic_cast != nullptr`.
Total: returns a `Bool`, never fails. -/
def isaExpr (K : ExprKind) (e : Expr) : Bool :=
  e.defined && (Expr.dynCast K e).isSome

/-- `isa<S>(Stmt)` (ir.h line 108). -/
def isaStmt (K : StmtKind) (s : Stmt) : Bool :=
  s.defined && (Stmt.dynCast K s).isSome

/-- `to<E>(Expr)` (ir.h line 90): `iassert(isa<E>(e))`, then the cast pointer. -/
def toExpr (K : ExprKind) (e : Expr) : Except Err ExprNodeBase :=
  if isaExpr K e then
    match e.node with
    | some n => .ok n
    | none => .error .iassertFail
  else .error .iassertFail

/-- `to<S>(Stmt)` (ir.h line 113). -/
def toStmt (K : StmtKind) (s : Stmt) : Except Err StmtNodeBase :=
  if isaStmt K s then
    match s.node with
    | some n => .ok n
    | none => .error .iassertFail
  else .error .iassertFail

/-- `Expr::type()` (ir.h line 63): `static_cast<const ExprNodeBase*>(ptr)->type`.
The source performs no check: on an undefined handle it dereferences the null
pointer (modelled `Err.nullDeref`), it does not run an `iassert`. -/
def Expr.typeQuery (e : Expr) : Except Err IRType :=
  match e.node with
  | some n => .ok n.ty
  | none => .error .nullDeref

/-! ### Reference counting (`IRNode::aquire`/`release`, ir.h lines 27-29)

An `IRNode` carries `mutable long ref = 0`.  `aquire` is `++ref`; `release`
is `if (--ref == 0) delete node;`.  Handles drive these: copying a handle
onto a node performs `aquire`, dropping a handle performs `release`.  We model
the observable state of one node (its counter and whether it has been
deleted) and run an arbitrary interleaving of handle copies and drops. -/

/-- One handle operation on a node: a handle copy (`aquire`) or a handle
drop (`release`).  Spelled as in the source. -/
inductive HandleOp where
  | aquireOp
  | releaseOp
deriving DecidableEq, Repr

/-- Observable state of one node: its reference counter (`long ref`) and
whether `delete` has run on it. -/
structure NodeState where
  ref : Int
  deleted : Bool
deriving DecidableEq, Repr

/-- One step: `aquire` is `++ref`; `release` is `if (--ref == 0) delete`. -/
def NodeState.step (s : NodeState) : HandleOp → NodeState
  | .aquireOp => { s with ref := s.ref + 1 }
  | .releaseOp =>
      { ref := s.ref - 1, deleted := s.deleted || decide (s.ref - 1 = 0) }

/-- A freshly constructed node: `ref = 0`, not deleted. -/
def NodeState.init : NodeState := ⟨0, false⟩

/-- Run a sequence of handle operations on a fresh node. -/
def runOps (ops : List HandleOp) : NodeState :=
  ops.foldl NodeState.step NodeState.init

/-- The number of live handles after a sequence of copies and drops:
copies minus drops. -/
def liveHandles : List HandleOp → Int
  | [] => 0
  | .aquireOp :: rest => liveHandles rest + 1
  | .releaseOp :: rest => liveHandles rest - 1

/-- A well-formed handle trace: every drop releases a live handle and no
operation happens after the node dies, i.e. every proper nonempty prefix
leaves at least one live handle, and the trace never over-releases. -/
def wfTrace (ops : List HandleOp) : Bool :=
  (List.range ops.length).all
    (fun i => i == 0 || decide (0 < liveHandles (ops.take i))) &&
  decide (0 ≤ liveHandles ops)

/-! ### `Func`, `Environment`, `Storage` (ir.h lines 119-191) -/

/-- The environment of a function: globals mapped to defining expressions.
(`std::map<Var, Expr>` modelled as an association list.) -/
structure Environment where
  globals : List (Var × Expr)

/-- `Func::Kind` (ir.h line 147). -/
inductive FuncKind where
  | Internal
  | External
  | Intrinsic
deriving DecidableEq, Repr

/-- `FuncContent` (ir.h lines 128-141): the shared state behind a `Func`
handle.  (`kind` is stored as an `int` in the source and cast back in
`getKind`; constructors only ever store enum values, so it is modelled as
the enum directly.) -/
structure FuncContent where
  kind : FuncKind
  name : String
  arguments : List Var
  results : List Var
  env : Environment
  body : Stmt
  storage : Storage

/-- A `Func` handle: an intrusive pointer to shared `FuncContent`
(null for the undefined `Func`). -/
structure Func where
  content : Option FuncContent

/-- A defined `Func` over given content. -/
def Func.ofContent (c : FuncContent) : Func := ⟨some c⟩

/-- `Func::getName` (ir.h line 164): `ptr->name`. -/
def Func.getName (f : Func) : Except Err String :=
  match f.content with
  | some c => .ok c.name
  | none => .error .nullDeref

/-- `Func::getArguments` (ir.h line 165). -/
def Func.getArguments (f : Func) : Except Err (List Var) :=
  match f.content with
  | some c => .ok c.arguments
  | none => .error .nullDeref

/-- `Func::getResults` (ir.h line 166). -/
def Func.getResults (f : Func) : Except Err (List Var) :=
  match f.content with
  | some c => .ok c.results
  | none => .error .nullDeref

/-- `Func::getBody` (ir.h line 167). -/
def Func.getBody (f : Func) : Except Err Stmt :=
  match f.content with
  | some c => .ok c.body
  | none => .error .nullDeref

/-- `Func::getKind` (ir.h line 170). -/
def Func.getKind (f : Func) : Except Err FuncKind :=
  match f.content with
  | some c => .ok c.kind
  | none => .error .nullDeref

/-- `Func::getEnvironment` (ir.h lines 176-179). -/
def Func.getEnvironment (f : Func) : Except Err Environment :=
  match f.content with
  | some c => .ok c.env
  | none => .error .nullDeref

/-- `Func::getStorage` (ir.h lines 185-188). -/
def Func.getStorage (f : Func) : Except Err Storage :=
  match f.content with
  | some c => .ok c.storage
  | none => .error .nullDeref

/-- `Func::setEnvironment` (ir.h line 173): `ptr->env = env;` — mutates only
the environment slot of the shared content. -/
def Func.setEnvironment (f : Func) (env : Environment) : Func :=
  match f.content with
  | some c => ⟨some { c with env := env }⟩
  | none => ⟨none⟩

/-- `Func::setStorage` (ir.h line 182): `ptr->storage = storage;`. -/
def Func.setStorage (f : Func) (storage : Storage) : Func :=
  match f.content with
  | some c => ⟨some { c with storage := storage }⟩
  | none => ⟨none⟩

/-- The mutating operations available on a `Func` after construction:
`setEnvironment` and `setStorage` are the only non-const member functions. -/
inductive FuncOp where
  | setEnv (env : Environment)
  | setStor (storage : Storage)

/-- Apply a sequence of post-construction operations to a `Func`. -/
def Func.applyOps (f : Func) : List FuncOp → Func
  | [] => f
  | .setEnv e :: rest => (f.setEnvironment e).applyOps rest
  | .setStor s :: rest => (f.setStorage s).applyOps rest

/-! ### `ForDomain` (ir.h lines 437-457) -/

/-- `ForDomain::Kind` (ir.h line 438). -/
inductive ForDomainKind where
  | IndexSet
  | Endpoints
  | Edges
  | Neighbors
  | NeighborsOf
  | Diagonal
deriving DecidableEq, Repr

/-- `ForDomain` (ir.h lines 437-457): what a `For` loop ranges over. -/
structure ForDomain where
  kind : ForDomainKind
  indexSet : IndexSet
  set : Expr
  var : Var

/-- The one-argument constructor `ForDomain(IndexSet)` (line 449): kind is
`IndexSet`, `set`/`var` stay default-initialized.  Always succeeds. -/
def ForDomain.mkIndexSet (is : IndexSet) : ForDomain :=
  ⟨.IndexSet, is, ⟨none⟩, ⟨"", .tensor [] .float⟩⟩

/-- The constructor `ForDomain(set, var, kind)` (lines 450-452):
`iassert(kind != IndexSet)`; the `indexSet` field stays default-constructed. -/
def ForDomain.mkSetVar (set : Expr) (v : Var) (kind : ForDomainKind) :
    Except Err ForDomain :=
  if kind ≠ ForDomainKind.IndexSet then
    .ok ⟨kind, IndexSet.default, set, v⟩
  else
    .error .iassertFail

/-- The constructor `ForDomain(set, var, kind, indexSet)` (lines 453-456):
`iassert(kind == NeighborsOf)`. -/
def ForDomain.mkSetVarIndexSet (set : Expr) (v : Var) (kind : ForDomainKind)
    (is : IndexSet) : Except Err ForDomain :=
  if kind = ForDomainKind.NeighborsOf then
    .ok ⟨kind, is, set, v⟩
  else
    .error .iassertFail

/-! ### Type computation and node factories

The factory bodies live in `ir.cpp`, which is not part of the provided
source; they are modelled from the spec and from the doc comments in `ir.h`
(lines 506-526), as indicated on each definition. -/

/-- Modelled from the spec: `getBlockType(tensor)` (declared ir.h line 221,
body in `ir.cpp`, absent from the provided source): for a blocked tensor the
per-block component type, otherwise the scalar component type.  In this
embedding blocks are not distinguished, so the result is the scalar
component type of the tensor's type. -/
def getBlockType (tensor : Expr) : Except Err IRType :=
  match tensor.node with
  | some n => .ok (.tensor [] n.ty.componentOf)
  | none => .error .nullDeref

/-- Modelled from the spec: `getIndexExprType(resultVars, value)` (declared
ir.h line 222, body in `ir.cpp`, absent from the provided source): "the
result is a tensor whose order equals `resultVars.size()` and whose
per-dimension size is the index set size of the corresponding result
variable, in order; the component type is the component type of `value`." -/
def getIndexExprType (lhsIndexVars : List IndexVar) (expr : Expr) :
    Except Err IRType :=
  match expr.node with
  | some n => .ok (.tensor (lhsIndexVars.map IndexVar.domain) n.ty.componentOf)
  | none => .error .nullDeref

/-- Modelled from the spec: `IndexExpr::domain()` (declared ir.h line 538,
body in `ir.cpp`, absent from the provided source): "the set of index
variables the expression's value ranges over, computed by scanning the value
subtree for `IndexedTensor` occurrences and unioning their index-variable
lists" — the union keeps first-appearance order. -/
def unionVars (acc : List IndexVar) : List IndexVar → List IndexVar
  | [] => acc
  | iv :: rest => if iv ∈ acc then unionVars acc rest else unionVars (acc ++ [iv]) rest

mutual

/-- Scan a value subtree for `IndexedTensor` occurrences, unioning their
index-variable lists in first-appearance order. -/
def ExprNodeBase.domainScan (acc : List IndexVar) : ExprNodeBase → List IndexVar
  | .mk k _ ops ivs _ =>
      ExprNodeBase.domainScanList
        (if k = ExprKind.IndexedTensor then unionVars acc ivs else acc) ops

/-- Scan a list of operand subtrees left to right. -/
def ExprNodeBase.domainScanList (acc : List IndexVar) :
    List ExprNodeBase → List IndexVar
  | [] => acc
  | n :: rest =>
      ExprNodeBase.domainScanList (ExprNodeBase.domainScan acc n) rest

end

/-- `IndexExpr::domain()` over the value subtree of an index expression. -/
def exprDomain (value : ExprNodeBase) : List IndexVar :=
  value.domainScan []

/-- Modelled from the spec and the doc comment at ir.h lines 511-515:
`TensorRead::make(tensor, indices)` (body in `ir.cpp`, absent from the
provided source): "The caller must either provide one or n indices, where n
is the tensor order" — any other arity fails the `iassert` invariant check.
On success the node reads a block of the tensor, typed via `getBlockType`. -/
def TensorRead.make (tensor : Expr) (indices : List Expr) :
    Except Err ExprNodeBase :=
  match tensor.node with
  | some n =>
      if indices.length = 1 ∨ indices.length = n.ty.order then
        .ok (.mk .TensorRead (.tensor [] n.ty.componentOf) [n] [] [])
      else
        .error .iassertFail
  | none => .error .nullDeref

/-- Modelled from the spec: `TensorWrite::make(tensor, indices, value, cop)`
(declared ir.h lines 524-525, body in `ir.cpp`, absent from the provided
source): "same arity rule as `TensorRead`" — the index list must have size 1
or size equal to the tensor's order, else the `iassert` check fails. -/
def TensorWrite.make (tensor : Expr) (indices : List Expr) (_value : Expr) :
    Except Err StmtNodeBase :=
  match tensor.node with
  | some n =>
      if indices.length = 1 ∨ indices.length = n.ty.order then
        .ok ⟨.TensorWrite⟩
      else
        .error .iassertFail
  | none => .error .nullDeref

/-- Modelled from the spec: `Literal::cast(Type)` (declared ir.h line 235,
body in `ir.cpp`, absent from the provided source): a "type-preserving
re-cast of its stored representation" — the stored bytes are reinterpreted
in place (byte-for-byte unchanged) and, per the node invariant "type is
computed once at construction and never changes", the node's type is
unchanged. -/
def Literal.cast (n : ExprNodeBase) (_requested : IRType) : ExprNodeBase :=
  .mk n.kind n.ty n.operands n.indexVars n.litData

/-- The post-construction operations applicable to an expression node:
`Literal::cast` is the only mutating member (`accept` is `const` and
dispatches to a visitor without touching the node). -/
inductive ExprNodeOp where
  | castOp (requested : IRType)

/-- Apply a sequence of post-construction operations to an expression node. -/
def ExprNodeBase.applyOps (n : ExprNodeBase) : List ExprNodeOp → ExprNodeBase
  | [] => n
  | .castOp t :: rest => (Literal.cast n t).applyOps rest

/-! ### The intrinsics registry (ir.h lines 196-216) -/

/-- The names of the intrinsic functions (ir.h lines 198-214). -/
def intrinsicNames : List String :=
  ["mod", "sin", "cos", "tan", "asin", "acos", "atan2", "sqrt", "log",
   "exp", "pow", "norm", "dot", "det", "inv", "solve", "loc"]

/-- Modelled from the spec: the `Intrinsics` registry (the static members of
ir.h lines 196-216 are initialized in `ir.cpp`, absent from the provided
source): a process-wide table, initialized once before first use and
immutable thereafter, mapping each intrinsic name to its `Func` declaration
with kind `Intrinsic` and that name.  (Argument/result prototypes are also
set in `ir.cpp`; the registry is modelled with empty prototypes, which no
claim observes.) -/
def intrinsicFunc (name : String) : Func :=
  Func.ofContent ⟨.Intrinsic, name, [], [], ⟨[]⟩, ⟨none⟩, ⟨[]⟩⟩

/-- `Intrinsics::byName` lookup: defined exactly on the intrinsic names. -/
def Intrinsics.byName (name : String) : Option Func :=
  if name ∈ intrinsicNames then some (intrinsicFunc name) else none

/-! ## Theorems -/

/-- C3: for every defined expression or statement handle whose underlying node
has concrete kind `K`, `isa<K>` returns true, `isa<J>` returns false for every
other concrete kind `J`, `to<K>` returns the same underlying node, and `to<J>`
for `J ≠ K` fails the fatal `iassert` invariant check. -/
theorem isa_to_downcast_sound :
    (∀ (n : ExprNodeBase) (K : ExprKind), n.kind = K →
      isaExpr K ⟨some n⟩ = true ∧
      (∀ J : ExprKind, J ≠ K → isaExpr J ⟨some n⟩ = false) ∧
      toExpr K ⟨some n⟩ = .ok n ∧
      (∀ J : ExprKind, J ≠ K → toExpr J ⟨some n⟩ = .error .iassertFail)) ∧
    (∀ (m : StmtNodeBase) (K : StmtKind), m.kind = K →
      isaStmt K ⟨some m⟩ = true ∧
      (∀ J : StmtKind, J ≠ K → isaStmt J ⟨some m⟩ = false) ∧
      toStmt K ⟨some m⟩ = .ok m ∧
      (∀ J : StmtKind, J ≠ K → toStmt J ⟨some m⟩ = .error .iassertFail)) := by
  constructor
  · intro n K hK
    refine ⟨?_, ?_, ?_, ?_⟩
    · simp [isaExpr, Expr.defined, Expr.dynCast, hK]
    · intro J hJ
      simp [isaExpr, Expr.defined, Expr.dynCast, hK, hJ.symm]
    · simp [toExpr, isaExpr, Expr.defined, Expr.dynCast, hK]
    · intro J hJ
      simp [toExpr, isaExpr, Expr.defined, Expr.dynCast, hK, hJ.symm]
  · intro m K hK
    refine ⟨?_, ?_, ?_, ?_⟩
    · simp [isaStmt, Stmt.defined, Stmt.dynCast, hK]
    · intro J hJ
      simp [isaStmt, Stmt.defined, Stmt.dynCast, hK, hJ.symm]
    · simp [toStmt, isaStmt, Stmt.defined, Stmt.dynCast, hK]
    · intro J hJ
      simp [toStmt, isaStmt, Stmt.defined, Stmt.dynCast, hK, hJ.symm]

/-- A sample `Add` node for the downcast witness. -/
def addNode : ExprNodeBase := .mk .Add (.tensor [] .float) [] [] []

/-- C3 witness: the downcast laws at a concrete `Add` node and a concrete
`Block` statement node. -/
theorem isa_to_downcast_sound_witness :
    isaExpr .Add ⟨some addNode⟩ = true ∧
    isaExpr .Sub ⟨some addNode⟩ = false ∧
    toExpr .Add ⟨some addNode⟩ = .ok addNode ∧
    toExpr .Sub ⟨some addNode⟩ = .error .iassertFail ∧
    isaStmt .Block ⟨some ⟨.Block⟩⟩ = true ∧
    toStmt .Print ⟨some ⟨.Block⟩⟩ = .error .iassertFail := by
  obtain ⟨he, hs⟩ := isa_to_downcast_sound
  obtain ⟨h1, h2, h3, h4⟩ := he addNode .Add rfl
  obtain ⟨h5, _, _, h6⟩ := hs ⟨.Block⟩ .Block rfl
  exact ⟨h1, h2 .Sub (by decide), h3, h4 .Sub (by decide), h5,
         h6 .Print (by decide)⟩

/-- C10: `isa<K>` on an undefined handle (null pointer) returns `false` for
every kind, totally: the `e.defined() &&` short-circuit avoids dereferencing
the null pointer, and no invariant check runs (the result is a plain `Bool`). -/
theorem isa_undefined_handle_false :
    (∀ K : ExprKind, isaExpr K ⟨none⟩ = false) ∧
    (∀ K : StmtKind, isaStmt K ⟨none⟩ = false) :=
  ⟨fun _ => rfl, fun _ => rfl⟩

/-- C6 counterexample: `Expr::type()` on the undefined handle does not fail an
`iassert` invariant check — ir.h line 63 contains no check at all. -/
theorem undefined_type_query_no_iassert :
    ¬ Expr.typeQuery ⟨none⟩ = Except.error Err.iassertFail := by
  simp [Expr.typeQuery]

/-- C6 amended: `Expr::type()` on the undefined handle dereferences the null
node pointer (undefined behavior, modelled as `Err.nullDeref`) without
performing an invariant check. -/
theorem undefined_type_query_null_deref :
    Expr.typeQuery ⟨none⟩ = Except.error Err.nullDeref := rfl

/-- C7: the `ForDomain(set, var, kind)` constructor fails the `iassert`
invariant check exactly when `kind` is `IndexSet` (and otherwise leaves the
`indexSet` field default-constructed), and the
`ForDomain(set, var, kind, indexSet)` constructor fails exactly when `kind`
is not `NeighborsOf` — in particular kind `Edges` with a non-empty `indexSet`
fails. -/
theorem forDomain_construction_checks :
    (∀ (set : Expr) (v : Var) (k : ForDomainKind),
      (ForDomain.mkSetVar set v k = .error .iassertFail ↔
        k = ForDomainKind.IndexSet) ∧
      (∀ d, ForDomain.mkSetVar set v k = .ok d →
        d.indexSet = IndexSet.default)) ∧
    (∀ (set : Expr) (v : Var) (k : ForDomainKind) (is : IndexSet),
      ForDomain.mkSetVarIndexSet set v k is = .error .iassertFail ↔
        ¬ k = ForDomainKind.NeighborsOf) := by
  constructor
  · intro set v k
    constructor
    · cases k <;> simp [ForDomain.mkSetVar]
    · intro d hd
      cases k <;> simp [ForDomain.mkSetVar] at hd <;> simp [← hd]
  · intro set v k is
    cases k <;> simp [ForDomain.mkSetVarIndexSet]

/-- C7 witness: concrete constructions — 3-argument constructor with kind
`IndexSet` fails, with kind `Edges` succeeds with a default `indexSet`;
4-argument constructor with kind `Edges` and a non-empty index set fails. -/
theorem forDomain_construction_checks_witness :
    ForDomain.mkSetVar ⟨none⟩ ⟨"e", .tensor [] .float⟩ .IndexSet
      = .error .iassertFail ∧
    ForDomain.mkSetVarIndexSet ⟨none⟩ ⟨"e", .tensor [] .float⟩ .Edges ⟨"E", 5⟩
      = .error .iassertFail ∧
    ∀ d, ForDomain.mkSetVar ⟨none⟩ ⟨"e", .tensor [] .float⟩ .Edges = .ok d →
      d.indexSet = IndexSet.default := by
  obtain ⟨h3, h4⟩ := forDomain_construction_checks
  exact ⟨((h3 _ _ _).1).mpr rfl, (h4 _ _ _ _).mpr (by decide), (h3 _ _ _).2⟩

/-- C9: the intrinsics registry maps each of the seventeen intrinsic names to
a defined `Func` whose kind is `Intrinsic` and whose name equals the lookup
key; `byName` is a pure function, so repeated lookups of the same name return
the same `Func`. -/
theorem intrinsics_registry_byName :
    ∀ s ∈ intrinsicNames,
      (Intrinsics.byName s).map (fun f => f.content.isSome) = some true ∧
      (Intrinsics.byName s).map Func.getName = some (.ok s) ∧
      (Intrinsics.byName s).map Func.getKind = some (.ok .Intrinsic) ∧
      Intrinsics.byName s = Intrinsics.byName s := by
  intro s hs
  simp [Intrinsics.byName, hs, intrinsicFunc, Func.ofContent, Func.getName,
        Func.getKind]

/-- C9 witness: the lookup law at the concrete name `"sqrt"`. -/
theorem intrinsics_registry_byName_witness :
    (Intrinsics.byName "sqrt").map (fun f => f.content.isSome) = some true ∧
    (Intrinsics.byName "sqrt").map Func.getName = some (.ok "sqrt") ∧
    (Intrinsics.byName "sqrt").map Func.getKind = some (.ok .Intrinsic) ∧
    Intrinsics.byName "sqrt" = Intrinsics.byName "sqrt" :=
  intrinsics_registry_byName "sqrt" (by decide)

/-- C5: the `Type` stored on an expression node is fixed at construction —
applying any sequence of post-construction node operations (the only mutating
one being `Literal::cast`, which re-casts the stored representation while
preserving the type) leaves the result of `type()` unchanged. -/
theorem expr_node_type_fixed :
    ∀ (n : ExprNodeBase) (ops : List ExprNodeOp),
      (n.applyOps ops).ty = n.ty ∧
      Expr.typeQuery ⟨some (n.applyOps ops)⟩ = .ok n.ty := by
  have key : ∀ (ops : List ExprNodeOp) (n : ExprNodeBase),
      (n.applyOps ops).ty = n.ty := by
    intro ops
    induction ops with
    | nil => intro n; rfl
    | cons op rest ih =>
        intro n
        cases op with
        | castOp t =>
            show ((Literal.cast n t).applyOps rest).ty = n.ty
            rw [ih (Literal.cast n t)]
            cases n with
            | mk k t ops ivs d => rfl
  intro n ops
  exact ⟨key ops n, by simp [Expr.typeQuery, key ops n]⟩

/-- C8 helper: post-construction `Func` operations only touch the
environment and storage slots of the shared content. -/
theorem func_applyOps_shape :
    ∀ (ops : List FuncOp) (c : FuncContent), ∃ c',
      Func.applyOps (Func.ofContent c) ops = Func.ofContent c' ∧
      c'.name = c.name ∧ c'.arguments = c.arguments ∧
      c'.results = c.results ∧ c'.body = c.body ∧ c'.kind = c.kind := by
  intro ops
  induction ops with
  | nil => intro c; exact ⟨c, rfl, rfl, rfl, rfl, rfl, rfl⟩
  | cons op rest ih =>
      intro c
      cases op with
      | setEnv e =>
          obtain ⟨c', h, hn, ha, hr, hb, hk⟩ := ih { c with env := e }
          exact ⟨c', h, hn, ha, hr, hb, hk⟩
      | setStor s =>
          obtain ⟨c', h, hn, ha, hr, hb, hk⟩ := ih { c with storage := s }
          exact ⟨c', h, hn, ha, hr, hb, hk⟩

/-- C8: on a defined `Func`, `setEnvironment` changes only the environment
and `setStorage` changes only the storage: the name, arguments, results,
body and kind getters are unchanged by every sequence of post-construction
operations, and each setter leaves the other mutable slot intact. -/
theorem func_setters_frame :
    ∀ (c : FuncContent) (ops : List FuncOp),
      (Func.applyOps (Func.ofContent c) ops).getName = .ok c.name ∧
      (Func.applyOps (Func.ofContent c) ops).getArguments = .ok c.arguments ∧
      (Func.applyOps (Func.ofContent c) ops).getResults = .ok c.results ∧
      (Func.applyOps (Func.ofContent c) ops).getBody = .ok c.body ∧
      (Func.applyOps (Func.ofContent c) ops).getKind = .ok c.kind ∧
      (∀ e, ((Func.ofContent c).setEnvironment e).getEnvironment = .ok e ∧
            ((Func.ofContent c).setEnvironment e).getStorage = .ok c.storage) ∧
      (∀ s, ((Func.ofContent c).setStorage s).getStorage = .ok s ∧
            ((Func.ofContent c).setStorage s).getEnvironment = .ok c.env) := by
  intro c ops
  obtain ⟨c', h, hn, ha, hr, hb, hk⟩ := func_applyOps_shape ops c
  rw [h]
  refine ⟨?_, ?_, ?_, ?_, ?_, ?_, ?_⟩
  · simp [Func.getName, Func.ofContent, hn]
  · simp [Func.getArguments, Func.ofContent, ha]
  · simp [Func.getResults, Func.ofContent, hr]
  · simp [Func.getBody, Func.ofContent, hb]
  · simp [Func.getKind, Func.ofContent, hk]
  · intro e
    exact ⟨rfl, rfl⟩
  · intro s
    exact ⟨rfl, rfl⟩

/-- C2: for a tensor expression of order `k`, `TensorRead::make` and
`TensorWrite::make` succeed exactly when the index list has size `1` or size
`k`, and fail the fatal `iassert` invariant check for every other size. -/
theorem tensor_read_write_arity :
    ∀ (n : ExprNodeBase) (indices : List Expr) (value : Expr),
      ((∃ r, TensorRead.make ⟨some n⟩ indices = .ok r) ↔
        (indices.length = 1 ∨ indices.length = n.ty.order)) ∧
      (TensorRead.make ⟨some n⟩ indices = .error .iassertFail ↔
        ¬ (indices.length = 1 ∨ indices.length = n.ty.order)) ∧
      ((∃ r, TensorWrite.make ⟨some n⟩ indices value = .ok r) ↔
        (indices.length = 1 ∨ indices.length = n.ty.order)) ∧
      (TensorWrite.make ⟨some n⟩ indices value = .error .iassertFail ↔
        ¬ (indices.length = 1 ∨ indices.length = n.ty.order)) := by
  intro n indices value
  by_cases h : indices.length = 1 ∨ indices.length = n.ty.order <;>
    simp [TensorRead.make, TensorWrite.make, h]

/-- A sample order-2 tensor variable node for the arity witness: a matrix
over two index sets of sizes 3 and 4. -/
def matNode : ExprNodeBase :=
  .mk .VarExpr (.tensor [⟨"A", 3⟩, ⟨"B", 4⟩] .float) [] [] []

/-- A sample scalar index expression handle. -/
def idxExpr : Expr := ⟨some (.mk .Literal (.tensor [] .int) [] [] [0])⟩

/-- C2 witness: on the order-2 tensor, one index succeeds, two indices
succeed, and zero or three indices fail the invariant check. -/
theorem tensor_read_write_arity_witness :
    (∃ r, TensorRead.make ⟨some matNode⟩ [idxExpr] = .ok r) ∧
    (∃ r, TensorRead.make ⟨some matNode⟩ [idxExpr, idxExpr] = .ok r) ∧
    TensorRead.make ⟨some matNode⟩ [] = .error .iassertFail ∧
    TensorRead.make ⟨some matNode⟩ [idxExpr, idxExpr, idxExpr]
      = .error .iassertFail ∧
    (∃ r, TensorWrite.make ⟨some matNode⟩ [idxExpr, idxExpr] idxExpr = .ok r) ∧
    TensorWrite.make ⟨some matNode⟩ [idxExpr, idxExpr, idxExpr] idxExpr
      = .error .iassertFail := by
  refine ⟨((tensor_read_write_arity matNode [idxExpr] idxExpr).1).mpr
            (Or.inl rfl),
          ((tensor_read_write_arity matNode [idxExpr, idxExpr] idxExpr).1).mpr
            (Or.inr rfl),
          ((tensor_read_write_arity matNode [] idxExpr).2.1).mpr (by decide),
          ((tensor_read_write_arity matNode
              [idxExpr, idxExpr, idxExpr] idxExpr).2.1).mpr (by decide),
          ((tensor_read_write_arity matNode
              [idxExpr, idxExpr] idxExpr).2.2.1).mpr (Or.inr rfl),
          ((tensor_read_write_arity matNode
              [idxExpr, idxExpr, idxExpr] idxExpr).2.2.2).mpr (by decide)⟩

/-- C1: `getIndexExprType(resultVars, value)` on a defined value returns a
tensor type whose order equals `resultVars.length`, whose `i`-th dimension is
the index set of the `i`-th result variable (in the order given by
`resultVars`), and whose component type is the component type of `value`;
an index variable that appears only in `value` (and whose index set is not
that of any result variable) is absent from the result shape, and the result
does not depend on the index-variable structure of `value` at all — only on
its component type. -/
theorem getIndexExprType_sound :
    ∀ (resultVars : List IndexVar) (value : ExprNodeBase),
      ∃ dims c,
        getIndexExprType resultVars ⟨some value⟩ = .ok (.tensor dims c) ∧
        (IRType.tensor dims c).order = resultVars.length ∧
        (∀ i, i < resultVars.length →
          dims.getD i IndexSet.default =
            (resultVars.getD i ⟨"", IndexSet.default⟩).domain) ∧
        c = value.ty.componentOf ∧
        (∀ k : IndexVar, k ∈ exprDomain value → k ∉ resultVars →
          (∀ j ∈ resultVars, j.domain ≠ k.domain) → k.domain ∉ dims) ∧
        (∀ value2 : ExprNodeBase,
          value2.ty.componentOf = value.ty.componentOf →
          getIndexExprType resultVars ⟨some value2⟩ =
            getIndexExprType resultVars ⟨some value⟩) := by
  intro rv value
  refine ⟨rv.map IndexVar.domain, value.ty.componentOf, rfl, ?_, ?_, rfl,
          ?_, ?_⟩
  · simp [IRType.order]
  · intro i hi
    simp [List.getD_eq_getElem?_getD, List.getElem?_map,
          List.getElem?_eq_getElem hi]
  · intro k _ _ hdom hmem
    obtain ⟨j, hj, hjd⟩ := List.mem_map.mp hmem
    exact hdom j hj hjd
  · intro value2 h2
    simp [getIndexExprType, h2]

/-- Result variable `i` over an index set of size 3. -/
def ivI : IndexVar := ⟨"i", ⟨"A", 3⟩⟩

/-- Result variable `j` over an index set of size 4. -/
def ivJ : IndexVar := ⟨"j", ⟨"B", 4⟩⟩

/-- Reduction variable `k` over an index set of size 5; it appears in the
value but not among the result variables. -/
def ivK : IndexVar := ⟨"k", ⟨"C", 5⟩⟩

/-- A sample value subtree `a(k,i,j) * b(k)`: a `Mul` node over two
`IndexedTensor` leaves, with `k` appearing syntactically before `i, j`. -/
def exampleValue : ExprNodeBase :=
  .mk .Mul (.tensor [] .float)
    [.mk .IndexedTensor (.tensor [] .float) [] [ivK, ivI, ivJ] [],
     .mk .IndexedTensor (.tensor [] .float) [] [ivK] []] [] []

/-- C1 witness: for `resultVars = [i, j]` with sizes `(3, 4)` and the value
`a(k,i,j) * b(k)` with `k` of size 5 appearing first syntactically, the
result is the shape `(3, 4)` with component `float`, `k`'s index set absent. -/
theorem getIndexExprType_sound_witness :
    getIndexExprType [ivI, ivJ] ⟨some exampleValue⟩ =
      .ok (.tensor [⟨"A", 3⟩, ⟨"B", 4⟩] .float) ∧
    ivK ∈ exprDomain exampleValue ∧
    (IndexSet.mk "C" 5) ∉ [IndexSet.mk "A" 3, IndexSet.mk "B" 4] := by
  obtain ⟨dims, c, heq, _, _, _, habs, _⟩ :=
    getIndexExprType_sound [ivI, ivJ] exampleValue
  have hdc : dims = [IndexSet.mk "A" 3, IndexSet.mk "B" 4] ∧
      c = ComponentType.float := by
    have : Except.ok (ε := Err)
        (IRType.tensor [IndexSet.mk "A" 3, IndexSet.mk "B" 4] .float) =
        .ok (.tensor dims c) := by rw [← heq]; rfl
    cases this
    exact ⟨rfl, rfl⟩
  refine ⟨by rw [heq, hdc.1, hdc.2], by decide, ?_⟩
  have := habs ivK (by decide) (by decide) (by decide)
  rw [hdc.1] at this
  exact this

/-! ### Reference-counting lemmas for C4 -/

/-- `liveHandles` is additive over concatenation of traces. -/
theorem liveHandles_append (xs ys : List HandleOp) :
    liveHandles (xs ++ ys) = liveHandles xs + liveHandles ys := by
  induction xs with
  | nil => simp [liveHandles]
  | cons op rest ih =>
      cases op <;> simp [liveHandles, ih] <;> ring

/-- The counter after running a trace from any state is the starting counter
plus the number of live handles the trace creates. -/
theorem foldl_step_ref (ops : List HandleOp) :
    ∀ s : NodeState,
      (List.foldl NodeState.step s ops).ref = s.ref + liveHandles ops := by
  induction ops with
  | nil => intro s; simp [liveHandles]
  | cons op rest ih =>
      intro s
      cases op with
      | aquireOp =>
          show (List.foldl NodeState.step ⟨s.ref + 1, s.deleted⟩ rest).ref = _
          rw [ih]
          simp [liveHandles]
          ring
      | releaseOp =>
          show (List.foldl NodeState.step ⟨s.ref - 1, _⟩ rest).ref = _
          rw [ih]
          simp [liveHandles]
          ring

/-- If every nonempty prefix of a trace (the full trace included) leaves a
positive live-handle balance from the starting counter, then the node is
never deleted while the trace runs. -/
theorem foldl_step_not_deleted (ops : List HandleOp) :
    ∀ s : NodeState, s.deleted = false →
      (∀ i, 0 < i → i ≤ ops.length → 0 < s.ref + liveHandles (ops.take i)) →
      (List.foldl NodeState.step s ops).deleted = false := by
  induction ops with
  | nil => intro s hs _; exact hs
  | cons op rest ih =>
      intro s hs hpos
      cases op with
      | aquireOp =>
          refine ih ⟨s.ref + 1, s.deleted⟩ hs ?_
          intro i hi hile
          have := hpos (i + 1) (Nat.succ_pos i) (by simpa using hile)
          simp only [List.take_succ_cons, liveHandles] at this
          simp only [NodeState.ref]
          omega
      | releaseOp =>
          have h1 : 0 < s.ref + liveHandles ((HandleOp.releaseOp :: rest).take 1) :=
            hpos 1 Nat.one_pos (by simp)
          simp only [List.take_succ_cons, List.take_zero, liveHandles] at h1
          have hne : s.ref - 1 ≠ 0 := by omega
          refine ih ⟨s.ref - 1, s.deleted || decide (s.ref - 1 = 0)⟩ ?_ ?_
          · simp [hs, hne]
          · intro i hi hile
            have := hpos (i + 1) (Nat.succ_pos i) (by simpa using hile)
            simp only [List.take_succ_cons, liveHandles] at this
            simp only [NodeState.ref]
            omega

/-- Unpacking the Boolean well-formedness of a handle trace. -/
theorem wfTrace_spec (ops : List HandleOp) (h : wfTrace ops = true) :
    (∀ i, 0 < i → i < ops.length → 0 < liveHandles (ops.take i)) ∧
    0 ≤ liveHandles ops := by
  rw [wfTrace, Bool.and_eq_true] at h
  obtain ⟨h1, h2⟩ := h
  constructor
  · intro i hi hilen
    have := List.all_eq_true.mp h1 i (List.mem_range.mpr hilen)
    rw [Bool.or_eq_true] at this
    rcases this with h0 | hp
    · exfalso
      have h0' : i = 0 := by simpa using h0
      omega
    · exact of_decide_eq_true hp
  · exact of_decide_eq_true h2

/-- C4: over every well-formed sequence of handle copies (`aquire`) and drops
(`release`) on a node, the node's reference count equals the number of live
handles at every point, the node stays alive (not deleted) while at least one
handle references it, and the node is deleted exactly when the trace is
nonempty and its last drop brings the live-handle count to zero. -/
theorem handle_refcount_lifetime :
    ∀ ops : List HandleOp, wfTrace ops = true →
      (runOps ops).ref = liveHandles ops ∧
      (∀ i, i ≤ ops.length →
        (runOps (ops.take i)).ref = liveHandles (ops.take i)) ∧
      ((runOps ops).deleted = true ↔ (ops ≠ [] ∧ liveHandles ops = 0)) ∧
      (∀ i, 0 < i → i < ops.length → (runOps (ops.take i)).deleted = false) := by
  intro ops hwf
  obtain ⟨hpref, hfull⟩ := wfTrace_spec ops hwf
  have href : ∀ l : List HandleOp, (runOps l).ref = liveHandles l := by
    intro l
    have := foldl_step_ref l NodeState.init
    simpa [runOps, NodeState.init] using this
  have hproper : ∀ i, 0 < i → i < ops.length →
      (runOps (ops.take i)).deleted = false := by
    intro i hi hilen
    refine foldl_step_not_deleted (ops.take i) NodeState.init rfl ?_
    intro j hj hjle
    rw [List.length_take] at hjle
    have hji : j ≤ i := by omega
    have hjlen : j < ops.length := by omega
    have := hpref j hj hjlen
    have htt : (ops.take i).take j = ops.take j := by
      rw [List.take_take, Nat.min_eq_left hji]
    rw [htt]
    simpa [NodeState.init] using this
  refine ⟨href ops, fun i _ => href (ops.take i), ?_, hproper⟩
  rcases List.eq_nil_or_concat ops with rfl | ⟨L, b, rfl⟩
  · simp [runOps, NodeState.init]
  · simp only [List.concat_eq_append] at hpref hfull hproper ⊢
    constructor
    · intro hdel
      refine ⟨by simp, ?_⟩
      by_contra hlz
      have hpos : 0 < liveHandles (L ++ [b]) := by
        rcases lt_or_eq_of_le hfull with h | h
        · exact h
        · exact absurd h.symm hlz
      have : (runOps (L ++ [b])).deleted = false := by
        refine foldl_step_not_deleted (L ++ [b]) NodeState.init rfl ?_
        intro i hi hile
        rcases lt_or_eq_of_le hile with hlt | heq
        · simpa [NodeState.init] using hpref i hi (by simpa using hlt)
        · rw [heq, List.take_length]
          simpa [NodeState.init] using hpos
      rw [this] at hdel
      exact Bool.false_ne_true hdel
    · rintro ⟨-, hlz⟩
      have hLd : (runOps L).deleted = false := by
        refine foldl_step_not_deleted L NodeState.init rfl ?_
        intro i hi hile
        have hilen : i < (L ++ [b]).length := by
          simp only [List.length_append, List.length_cons, List.length_nil]
          omega
        have htake : (L ++ [b]).take i = L.take i := by
          rw [List.take_append_of_le_length hile]
        have := hpref i hi hilen
        rw [htake] at this
        simpa [NodeState.init] using this
      have hLr : (runOps L).ref = liveHandles L := href L
      have hrun : runOps (L ++ [b]) = NodeState.step (runOps L) b := by
        simp [runOps, List.foldl_append]
      cases b with
      | aquireOp =>
          exfalso
          rw [liveHandles_append] at hlz
          simp only [liveHandles] at hlz
          rcases List.eq_nil_or_concat L with rfl | ⟨M, a, rfl⟩
          · simp [liveHandles] at hlz
          · simp only [List.concat_eq_append] at hpref hlz
            have hLlen : 0 < (M ++ [a]).length := by simp
            have : 0 < liveHandles ((M ++ [a] ++ [HandleOp.aquireOp]).take
                (M ++ [a]).length) := by
              refine hpref _ hLlen ?_
              simp
            rw [List.take_append_of_le_length (le_refl _),
                List.take_length] at this
            omega
      | releaseOp =>
          rw [hrun]
          rw [liveHandles_append] at hlz
          simp only [liveHandles] at hlz
          have : (runOps L).ref - 1 = 0 := by rw [hLr]; omega
          simp [NodeState.step, this]

/-- A concrete well-formed trace: two copies, one drop, one copy, two drops. -/
def demoOps : List HandleOp :=
  [.aquireOp, .aquireOp, .releaseOp, .aquireOp, .releaseOp, .releaseOp]

/-- C4 witness: the lifetime law at the concrete trace `demoOps`, whose
live-handle count ends at zero — the node is deleted exactly at the end. -/
theorem handle_refcount_lifetime_witness :
    wfTrace demoOps = true ∧
    ((runOps demoOps).ref = liveHandles demoOps ∧
     (∀ i, i ≤ demoOps.length →
       (runOps (demoOps.take i)).ref = liveHandles (demoOps.take i)) ∧
     ((runOps demoOps).deleted = true ↔
       (demoOps ≠ [] ∧ liveHandles demoOps = 0)) ∧
     (∀ i, 0 < i → i < demoOps.length →
       (runOps (demoOps.take i)).deleted = false)) :=
  ⟨by decide, handle_refcount_lifetime demoOps (by decide)⟩

end SimitIR
